import Mathlib

/-!
# Verification of the zk-ultralight locking library

A shallow embedding, in Lean 4, of `lib/ultralight.js`: the lock negotiation
loop, the connection gate (`onConnection`), the watch registry, the path
provisioner (`_createPath` / `_create`), the lock table (`unlock`) and the
process-wide connection registry (`getCxn` / `shutdown`).

Strings are modelled by Lean `String` (a wrapper around `List Char`); all
paths and node names the library manipulates are ASCII, where JavaScript's
UTF-16 code-unit operations (`slice`, `indexOf`, `<`, `.length`) agree with
the per-`Char` operations used here.  JavaScript errors are modelled as plain
`String` values.  Callback-style control flow is modelled by explicit outcome
types: each constructor records which continuation the code invokes (or that
it invokes none at all).
-/

namespace ZkUltralight

/-! ## JavaScript string primitives

The negotiation loop compares suffix strings with JavaScript's default
`Array.prototype.sort()` comparator, which compares strings code unit by
code unit.  `codeUnitLt` is that comparison on the underlying `Char` lists. -/

/-- JavaScript string `<`: lexicographic comparison by code units.
A proper prefix is smaller; otherwise the first differing unit decides. -/
def codeUnitLt : List Char → List Char → Bool
  | [], [] => false
  | [], _ :: _ => true
  | _ :: _, [] => false
  | a :: as, b :: bs =>
    if a.toNat < b.toNat then true
    else if b.toNat < a.toNat then false
    else codeUnitLt as bs

/-- JavaScript `a < b` on strings. -/
def strLt (a b : String) : Bool := codeUnitLt a.data b.data

/-- `s.slice(n)` (from-index slice) on an ASCII string. -/
def strDrop (s : String) (n : Nat) : String := ⟨s.data.drop n⟩

/-- `s.slice(0, n)` on an ASCII string. -/
def strTake (s : String) (n : Nat) : String := ⟨s.data.take n⟩

/-- Is `sub` a prefix of the list? (helper for substring search). -/
def prefixAt : List Char → List Char → Bool
  | [], _ => true
  | _ :: _, [] => false
  | a :: as, b :: bs => a = b && prefixAt as bs

/-- `n.indexOf(sub) !== -1`: does `sub` occur anywhere in `l`? -/
def hasSubstr (sub : List Char) : List Char → Bool
  | [] => prefixAt sub []
  | l@(_ :: rest) => prefixAt sub l || hasSubstr sub rest

/-! ## The sort used by the negotiation loop

`sequenceNumbers.sort()` with no comparator sorts the strings by code-unit
order.  The comparison is a strict total order on the (distinct) suffix
strings, so any correct sorting routine produces the same list; we embed it
as an insertion sort by `strLt`. -/

/-- Insert `x` into a `strLt`-ascending list, after every smaller element. -/
def insertLex (x : String) : List String → List String
  | [] => [x]
  | y :: ys => if strLt y x then y :: insertLex x ys else x :: y :: ys

/-- `array.sort()` — ascending by JavaScript string comparison. -/
def sortLex (l : List String) : List String := l.foldr insertLex []

/-! ## Suffix extraction and ranking (lines 162–165 of `ultralight.js`)

```
matchingChildren = children.filter(function(n) { return n.indexOf(lockname) !== -1; });
sequenceNumbers = matchingChildren.map(function(n) { return n.slice(lockname.length); });
sequenceNumbers = sequenceNumbers.sort();
```
-/

/-- The suffixes the loop extracts: children containing `lockname`,
each with its first `lockname.length` code units removed. -/
def matchingSuffixes (lockname : String) (children : List String) : List String :=
  (children.filter (fun n => hasSubstr lockname.data n.data)).map
    (fun n => strDrop n lockname.data.length)

/-- The sorted sibling-suffix list the loop ranks by (`sequenceNumbers` after
the `sort()` call). -/
def rankOrder (lockname : String) (children : List String) : List String :=
  sortLex (matchingSuffixes lockname children)

/-- Numeric value of a digit string: the sequence number it denotes. -/
def digitsVal : List Char → Nat
  | [] => 0
  | c :: cs => (c.toNat - 48) * 10 ^ cs.length + digitsVal cs

/-- The sequence number a suffix string denotes. -/
def suffixNat (s : String) : Nat := digitsVal s.data

/-- ASCII decimal digit. -/
def isDigitCh (c : Char) : Prop := 48 ≤ c.toNat ∧ c.toNat ≤ 57

instance (c : Char) : Decidable (isDigitCh c) := by
  unfold isDigitCh; infer_instance

/-! ### Facts about the code-unit comparison -/

theorem codeUnitLt_asymm {as bs : List Char} (h : codeUnitLt as bs = true) :
    codeUnitLt bs as = false := by
  induction as generalizing bs with
  | nil =>
    cases bs with
    | nil => simp [codeUnitLt] at h
    | cons b bs => simp [codeUnitLt]
  | cons a as ih =>
    cases bs with
    | nil => simp [codeUnitLt] at h
    | cons b bs =>
      simp only [codeUnitLt] at h ⊢
      by_cases hab : a.toNat < b.toNat
      · simp [hab, Nat.lt_asymm hab]
      · by_cases hba : b.toNat < a.toNat
        · simp [hab, hba] at h
        · simp only [hab, if_false, hba, if_false] at h ⊢
          exact ih h

theorem digitsVal_lt_pow {l : List Char} (h : ∀ c ∈ l, isDigitCh c) :
    digitsVal l < 10 ^ l.length := by
  induction l with
  | nil => simp [digitsVal]
  | cons c cs ih =>
    obtain ⟨hc1, hc2⟩ : 48 ≤ c.toNat ∧ c.toNat ≤ 57 := h c (List.mem_cons_self c cs)
    have hcs := ih (fun d hd => h d (List.mem_cons_of_mem c hd))
    have hd9 : c.toNat - 48 ≤ 9 := by omega
    have hmul : (c.toNat - 48) * 10 ^ cs.length ≤ 9 * 10 ^ cs.length :=
      Nat.mul_le_mul_right _ hd9
    have hpow : 10 ^ (c :: cs).length = 10 * 10 ^ cs.length := by
      simp [List.length_cons, pow_succ, Nat.mul_comm]
    simp only [digitsVal, hpow]
    have h1 : (c.toNat - 48) * 10 ^ cs.length + digitsVal cs
        < 9 * 10 ^ cs.length + 10 ^ cs.length :=
      add_lt_add_of_le_of_lt hmul hcs
    have h2 : 9 * 10 ^ cs.length + 10 ^ cs.length = 10 * 10 ^ cs.length := by ring
    exact lt_of_lt_of_eq h1 h2

/-- On equal-width digit strings, code-unit order is numeric order. -/
theorem codeUnitLt_iff_digitsVal {as bs : List Char}
    (hlen : as.length = bs.length)
    (ha : ∀ c ∈ as, isDigitCh c) (hb : ∀ c ∈ bs, isDigitCh c) :
    codeUnitLt as bs = true ↔ digitsVal as < digitsVal bs := by
  induction as generalizing bs with
  | nil =>
    cases bs with
    | nil => simp [codeUnitLt, digitsVal]
    | cons b bs => simp at hlen
  | cons a as ih =>
    cases bs with
    | nil => simp at hlen
    | cons b bs =>
      have hlen' : as.length = bs.length := by simpa using hlen
      obtain ⟨ha1, ha2⟩ : 48 ≤ a.toNat ∧ a.toNat ≤ 57 := ha a (List.mem_cons_self a as)
      obtain ⟨hb1, hb2⟩ : 48 ≤ b.toNat ∧ b.toNat ≤ 57 := hb b (List.mem_cons_self b bs)
      have ha' : ∀ c ∈ as, isDigitCh c := fun c hc => ha c (List.mem_cons_of_mem a hc)
      have hb' : ∀ c ∈ bs, isDigitCh c := fun c hc => hb c (List.mem_cons_of_mem b hc)
      have hva := digitsVal_lt_pow ha'
      have hvb := digitsVal_lt_pow hb'
      simp only [codeUnitLt, digitsVal, hlen']
      by_cases hab : a.toNat < b.toNat
      · rw [if_pos hab]
        refine ⟨fun _ => ?_, fun _ => rfl⟩
        have hstep : (a.toNat - 48) + 1 ≤ b.toNat - 48 := by omega
        have h1 : (a.toNat - 48) * 10 ^ bs.length + digitsVal as
            < (a.toNat - 48) * 10 ^ bs.length + 10 ^ bs.length :=
          Nat.add_lt_add_left (hlen' ▸ hva) _
        have h2 : (a.toNat - 48) * 10 ^ bs.length + 10 ^ bs.length
            = ((a.toNat - 48) + 1) * 10 ^ bs.length := by ring
        have h3 : ((a.toNat - 48) + 1) * 10 ^ bs.length ≤ (b.toNat - 48) * 10 ^ bs.length :=
          Nat.mul_le_mul_right _ hstep
        exact lt_of_lt_of_le (lt_of_lt_of_eq h1 h2)
          (le_trans h3 (Nat.le_add_right _ _))
      · by_cases hba : b.toNat < a.toNat
        · rw [if_neg hab, if_pos hba]
          simp only [Bool.false_eq_true, false_iff, not_lt]
          have hstep : (b.toNat - 48) + 1 ≤ a.toNat - 48 := by omega
          have h1 : (b.toNat - 48) * 10 ^ bs.length + digitsVal bs
              < (b.toNat - 48) * 10 ^ bs.length + 10 ^ bs.length :=
            Nat.add_lt_add_left hvb _
          have h2 : (b.toNat - 48) * 10 ^ bs.length + 10 ^ bs.length
              = ((b.toNat - 48) + 1) * 10 ^ bs.length := by ring
          have h3 : ((b.toNat - 48) + 1) * 10 ^ bs.length ≤ (a.toNat - 48) * 10 ^ bs.length :=
            Nat.mul_le_mul_right _ hstep
          exact le_of_lt (lt_of_lt_of_le (lt_of_lt_of_eq h1 h2)
            (le_trans h3 (Nat.le_add_right _ _)))
        · have hEq : a.toNat = b.toNat := by omega
          rw [hEq, if_neg (lt_irrefl b.toNat), if_neg (lt_irrefl b.toNat)]
          rw [ih hlen' ha' hb']
          exact (add_lt_add_iff_left _).symm

/-! ### Facts about the sort -/

theorem insertLex_perm (x : String) (l : List String) :
    (insertLex x l).Perm (x :: l) := by
  induction l with
  | nil => simp [insertLex]
  | cons y ys ih =>
    by_cases h : strLt y x
    · simp only [insertLex, h, if_true]
      exact (ih.cons y).trans (List.Perm.swap x y ys)
    · simp [insertLex, h]

theorem sortLex_perm (l : List String) : (sortLex l).Perm l := by
  induction l with
  | nil => simp [sortLex]
  | cons x xs ih =>
    have : sortLex (x :: xs) = insertLex x (sortLex xs) := rfl
    rw [this]
    exact (insertLex_perm x (sortLex xs)).trans (ih.cons x)

/-- The pairwise order the sort establishes between adjacent elements:
`a` is not strictly above `b` in code-unit order. -/
def lexLe (a b : String) : Prop := strLt b a = false

theorem insertLex_chain (x : String) (l : List String)
    (h : List.Chain' lexLe l) : List.Chain' lexLe (insertLex x l) := by
  induction l with
  | nil => simp [insertLex]
  | cons y ys ih =>
    by_cases hyx : strLt y x
    · simp only [insertLex, hyx, if_true]
      have hys : List.Chain' lexLe ys := h.tail
      have hrec := ih hys
      cases ys with
      | nil =>
        refine List.chain'_cons.mpr ⟨?_, List.chain'_singleton x⟩
        exact codeUnitLt_asymm hyx
      | cons z zs =>
        by_cases hzx : strLt z x
        · have hstep : insertLex x (z :: zs) = z :: insertLex x zs := by
            simp [insertLex, hzx]
          rw [hstep] at hrec ⊢
          exact List.chain'_cons.mpr ⟨(List.chain'_cons.mp h).1, hrec⟩
        · have hstep : insertLex x (z :: zs) = x :: z :: zs := by
            simp [insertLex, hzx]
          rw [hstep] at hrec ⊢
          exact List.chain'_cons.mpr ⟨codeUnitLt_asymm hyx, hrec⟩
    · simp only [insertLex, hyx, if_false]
      refine List.chain'_cons.mpr ⟨?_, h⟩
      exact Bool.of_not_eq_true hyx

theorem sortLex_chain (l : List String) : List.Chain' lexLe (sortLex l) := by
  induction l with
  | nil => simp [sortLex]
  | cons x xs ih => exact insertLex_chain x (sortLex xs) ih

/-- Strengthen a chain along a pointwise implication that may use membership. -/
theorem chain'_imp_mem {α : Type} {R S : α → α → Prop} :
    ∀ l : List α, (∀ a ∈ l, ∀ b ∈ l, R a b → S a b) → List.Chain' R l → List.Chain' S l
  | [], _, _ => List.chain'_nil
  | [_], _, _ => List.chain'_singleton _
  | a :: b :: t, h, hc => by
    have hc' := List.chain'_cons.mp hc
    refine List.chain'_cons.mpr ⟨h a (by simp) b (by simp) hc'.1, ?_⟩
    exact chain'_imp_mem (b :: t) (fun x hx y hy => h x (by simp [hx]) y (by simp [hy])) hc'.2

/-! ## Claim C1: the rank order computed by the negotiation loop -/

/-- C1 counterexample.  The loop's `sequenceNumbers.sort()` is JavaScript's
default (code-unit, i.e. lexicographic) sort.  With sibling suffixes of
differing widths — children `foo9` and `foo10` — the computed rank order is
`["10", "9"]`, which is not ascending numeric order of the sequence numbers:
the claim that the loop's rank order is numeric-value-correct for suffixes of
differing widths is false. -/
theorem C1_counterexample :
    rankOrder "foo" ["foo9", "foo10"] = ["10", "9"] ∧
    ¬ List.Sorted (fun a b => suffixNat a ≤ suffixNat b)
        (rankOrder "foo" ["foo9", "foo10"]) := by
  constructor
  · decide
  · decide

/-- C1 (amended).  The negotiation loop sorts the sibling sequence-number
suffixes with JavaScript's default lexicographic (code-unit) string sort, not
a numeric-aware comparison.  Provided every extracted suffix is a digit
string of one common fixed width `w` — the width the store commits to — the
computed rank order is a permutation of the suffix set that is ascending in
the numeric value of the sequence numbers; for differing widths it can
mis-rank (see the counterexample). -/
theorem C1_rank_numeric (lockname : String) (children : List String) (w : Nat)
    (hall : ∀ s ∈ matchingSuffixes lockname children,
      s.data.length = w ∧ ∀ c ∈ s.data, isDigitCh c) :
    (rankOrder lockname children).Perm (matchingSuffixes lockname children) ∧
    List.Sorted (fun a b => suffixNat a ≤ suffixNat b)
      (rankOrder lockname children) := by
  have hperm := sortLex_perm (matchingSuffixes lockname children)
  refine ⟨hperm, ?_⟩
  have hchain := sortLex_chain (matchingSuffixes lockname children)
  have hmem : ∀ s ∈ rankOrder lockname children,
      s.data.length = w ∧ ∀ c ∈ s.data, isDigitCh c :=
    fun s hs => hall s (hperm.mem_iff.mp hs)
  have hnum : List.Chain' (fun a b => suffixNat a ≤ suffixNat b)
      (rankOrder lockname children) := by
    refine chain'_imp_mem _ ?_ hchain
    intro a haMem b hbMem hR
    obtain ⟨hlena, hdiga⟩ := hmem a haMem
    obtain ⟨hlenb, hdigb⟩ := hmem b hbMem
    by_contra hlt
    push_neg at hlt
    have hcu : codeUnitLt b.data a.data = true :=
      (codeUnitLt_iff_digitsVal (by rw [hlenb, hlena]) hdigb hdiga).mpr hlt
    rw [show codeUnitLt b.data a.data = strLt b a from rfl, hR] at hcu
    exact Bool.false_ne_true hcu
  haveI : IsTrans String (fun a b => suffixNat a ≤ suffixNat b) :=
    ⟨fun _ _ _ h1 h2 => le_trans h1 h2⟩
  exact List.chain'_iff_pairwise.mp hnum

/-- C1 witness: three same-width suffixes, including a pair where naive
ASCII order and numeric order could diverge if widths differed. -/
theorem C1_rank_numeric_witness :
    (∀ s ∈ matchingSuffixes "foo" ["foo03", "foo10", "foo02"],
      s.data.length = 2 ∧ ∀ c ∈ s.data, isDigitCh c) ∧
    ((rankOrder "foo" ["foo03", "foo10", "foo02"]).Perm
        (matchingSuffixes "foo" ["foo03", "foo10", "foo02"]) ∧
      List.Sorted (fun a b => suffixNat a ≤ suffixNat b)
        (rankOrder "foo" ["foo03", "foo10", "foo02"])) :=
  ⟨by decide, C1_rank_numeric "foo" ["foo03", "foo10", "foo02"] 2 (by decide)⟩

/-! ## One iteration of the negotiation loop (`negotiateLock`, lines 151–197)

The `async.until` body issues `_getChildren(lockpath, false, cont)` and the
continuation either invokes the iteration callback (with or without an
error), registers a watch continuation, throws, or — in one branch —
returns without invoking anything.  `negotiateStep` is that continuation,
with the store's replies passed in explicitly. -/

/-- Models underscore's `_.sortedIndex(array, item)` on the lex-sorted
`sequenceNumbers` array: the binary search returns the insertion point,
which on a sorted array is the number of elements strictly below `item`. -/
def sortedIndex (l : List String) (v : String) : Nat :=
  (l.takeWhile (fun s => strLt s v)).length

/-- Models `_.indexOf(array, item, true)`: `_.sortedIndex` followed by an
equality check; underscore's `-1` result becomes `none`. -/
def indexOfSorted (l : List String) (v : String) : Option Nat :=
  if l.get? (sortedIndex l v) = some v then some (sortedIndex l v) else none

/-- `sequenceNumbers[_.indexOf(sequenceNumbers, position, true) - 1]`:
with index `-1` (absent) or `0` the JavaScript subscript is negative and
yields `undefined` (`none`). -/
def nextLowestOf (seq : List String) (position : String) : Option String :=
  match indexOfSorted seq position with
  | none => none
  | some i => if i = 0 then none else seq.get? (i - 1)

/-- What one pass of the `async.until` body does, i.e. which continuation
the code invokes (or fails to invoke). -/
inductive IterOutcome where
  /-- `gotLock = true; self._locks[name] = results.node; callback()` —
  the lock is acquired and the loop exits. -/
  | acquired (node : String)
  /-- `callback()` with no error — the loop re-runs the children listing. -/
  | retry
  /-- `self._watch(nextLowest, callback)` — the iteration callback is queued
  on the predecessor node and fires when that node is deleted. -/
  | watchPred (pred : String)
  /-- The branch falls through without invoking any continuation:
  the `async.until` loop never advances again. -/
  | stall
  /-- `children` is `undefined` and `children.filter` throws a `TypeError`
  across the asynchronous boundary; no callback is ever invoked. -/
  | thrown
deriving DecidableEq

/-- The continuation passed to `_getChildren` inside `negotiateLock`.
`node` is `results.node` (the created sequence node's full path);
`childrenRes` is what `_getChildren` reported (`.error e` when the store
call failed, in which case the code's `children` parameter is `undefined`);
`existsRes` is `_exists`'s report for the predecessor path (the code treats
a falsy `exists` — including the `undefined` passed along with an `_exists`
error — as "gone, retry"). -/
def negotiateStep (lockpath lockname node : String)
    (childrenRes : Except String (List String))
    (existsRes : String → Except String Bool) : IterOutcome :=
  match childrenRes with
  | .error _ => .thrown
  | .ok children =>
    let position := strDrop node (lockpath.data.length + lockname.data.length)
    let sequenceNumbers := rankOrder lockname children
    if sequenceNumbers.head? = some position then .acquired node
    else
      match nextLowestOf sequenceNumbers position with
      | some nextLowest =>
        if nextLowest = "" then .stall
        else
          let pred := lockpath ++ lockname ++ nextLowest
          match existsRes pred with
          | .ok true => .watchPred pred
          | _ => .retry
      | none => .stall

/-! ## Claim C2: absent own suffix -/

/-- C2.  When the children listing does not contain the created node's own
suffix, `_.indexOf` returns `-1`, `sequenceNumbers[-2]` is `undefined`, the
`if (nextLowest)` guard fails, and the iteration body returns without
invoking the `async.until` callback, registering a watch, or re-running the
listing: the negotiation stalls forever.  Concretely: the node
`/lock/foo0000000002` was created, but the listing returned only
`foo0000000001`.  The claim (and the spec) says this case must re-run the
listing immediately; the code instead waits indefinitely without invoking
any continuation. -/
theorem C2_absent_suffix_stalls :
    negotiateStep "/lock/" "foo" "/lock/foo0000000002"
      (.ok ["foo0000000001"]) (fun _ => .ok true) = .stall := by
  decide

/-! ## Claim C3: children-listing errors -/

/-- C3.  When the children-listing store call reports an error, the
continuation in `negotiateLock` ignores its `err` parameter; `children` is
`undefined`, so `children.filter(...)` throws a `TypeError` across the
asynchronous boundary.  The error is never delivered to `lock()`'s
completion callback, contrary to the claim (and to the spec's testable
property). -/
theorem C3_children_error_thrown (e : String) (existsRes : String → Except String Bool) :
    negotiateStep "/lock/" "foo" "/lock/foo0000000001" (.error e) existsRes
      = .thrown := rfl

/-! ## Node creation and path provisioning (`_create`, `_createPath`)

The store's reply to `a_create` is abstracted as a function from the path to
a return code; the node value does not influence control flow and is not
modelled.  Each model also returns the list of paths for which the store was
actually contacted, so "no store interaction" claims can be stated. -/

/-- The store's reply to `a_create(path, ...)`. -/
inductive Rc where
  /-- `ZOK`, with the created path (`a_create`'s third callback argument,
  which for a sequence node is the full node path). -/
  | zok (res : String)
  /-- `ZNODEEXISTS`. -/
  | znodeexists
  /-- any other return code, with its error value. -/
  | other (e : String)
deriving DecidableEq

/-- The error `_create` reports for a path not beginning with `/`. -/
def zkPathMsg : String := "A zookeeper path must begin with \"/\" !"

/-- `ZkCxn.prototype._create` (lines 446–460): guard on a leading `/`
before any store call; `ZOK` and `ZNODEEXISTS` both succeed (the latter
with an `undefined` result), any other code reports the store's error.
Returns the outcome and the store calls made. -/
def createModel (store : String → Rc) (path : String) :
    Except String (Option String) × List String :=
  if path.data.head? = some '/' then
    match store path with
    | .zok res => (.ok (some res), [path])
    | .znodeexists => (.ok none, [path])
    | .other e => (.error e, [path])
  else (.error zkPathMsg, [])

/-- `path.split('/')` on the underlying characters. -/
def splitSlash : List Char → List (List Char)
  | [] => [[]]
  | c :: cs =>
    match splitSlash cs with
    | [] => [[]]
    | seg :: rest => if c = '/' then [] :: seg :: rest else (c :: seg) :: rest

/-- `path.split('/').filter(function(i) { return i; })` — the nonempty
segments, as strings. -/
def segsOf (path : String) : List String :=
  ((splitSlash path.data).filter (fun s => s ≠ [])).map (fun l => ⟨l⟩)

/-- `parts.join('/')`. -/
def joinSlash : List String → String
  | [] => ""
  | [p] => p
  | p :: rest => p ++ "/" ++ joinSlash rest

/-- The `paths` array built by `_createPath`'s `for` loop:
`'/' + parts.slice(0, i).join('/')` for `i = 1 .. parts.length`. -/
def ancestorPaths (parts : List String) : List String :=
  (List.range parts.length).map (fun i => "/" ++ joinSlash (parts.take (i + 1)))

/-- `if (path.indexOf('/') === 0) path = path.substring(1)`. -/
def stripLeadSlash (path : String) : String :=
  match path.data with
  | '/' :: rest => ⟨rest⟩
  | _ => path

/-- `async.forEachSeries(paths, self._create...)`: strictly sequential,
front to back, stopping at (and reporting) the first error.  Returns the
first error (if any) and the store calls made, in order. -/
def forEachSeriesCreate (store : String → Rc) : List String → Option String × List String
  | [] => (none, [])
  | p :: rest =>
    match createModel store p with
    | (.error e, cs) => (some e, cs)
    | (.ok _, cs) =>
      let r := forEachSeriesCreate store rest
      (r.1, cs ++ r.2)

/-- `ZkCxn.prototype._createPath` (lines 414–435). -/
def createPathModel (store : String → Rc) (path : String) : Option String × List String :=
  let path' := stripLeadSlash path
  if path'.data.length = 0 then (none, [])
  else forEachSeriesCreate store (ancestorPaths (segsOf path'))

/-! ## `lock()` up to the start of the negotiation loop (lines 133–151)

`lock` splits the name at its last `/`, gates on `onConnection`, and runs
the `async.auto` steps `path` (`_createPath`) and `node` (`_create`); the
`lock` step (the negotiation loop above) only starts once `node` succeeded.
An error from any step aborts `async.auto` and is handed to `lock`'s
completion callback. -/

/-- `name.lastIndexOf('/')` as an optional index. -/
def lastIdxSlash : List Char → Option Nat
  | [] => none
  | c :: cs =>
    match lastIdxSlash cs with
    | some i => some (i + 1)
    | none => if c = '/' then some 0 else none

/-- `lockpath = name.slice(0, name.lastIndexOf('/') + 1)` and
`lockname = name.slice(name.lastIndexOf('/') + 1)`; when there is no `/`,
`lastIndexOf` is `-1` and the pair is `("", name)`. -/
def lockSplit (name : String) : String × String :=
  match lastIdxSlash name.data with
  | none => ("", name)
  | some i => (strTake name (i + 1), strDrop name (i + 1))

/-- How a `lock()` call resolves, up to the start of the negotiation loop. -/
inductive LockOutcome where
  /-- `onConnection` delivered an error; it is passed straight to the
  caller's callback and nothing else runs. -/
  | gateError (e : String)
  /-- the `path` step (`_createPath`) failed; `async.auto` aborts and the
  error goes to the caller's callback. -/
  | pathError (e : String)
  /-- the `node` step (`_create`) failed; `async.auto` aborts and the
  error goes to the caller's callback. -/
  | createError (e : String)
  /-- both setup steps succeeded with created node `node` (or `none` after
  `ZNODEEXISTS`); the negotiation loop (`negotiateStep`) begins. -/
  | negotiating (node : Option String)
deriving DecidableEq

/-- `ZkCxn.prototype.lock` up to the negotiation loop.  `gate` is what
`onConnection` delivered (`none` = connected).  Also returns the store
paths contacted. -/
def lockModel (gate : Option String) (store : String → Rc) (name : String) :
    LockOutcome × List String :=
  match gate with
  | some e => (.gateError e, [])
  | none =>
    let lockpath := (lockSplit name).1
    match createPathModel store lockpath with
    | (some e, calls) => (.pathError e, calls)
    | (none, calls) =>
      match createModel store name with
      | (.error e, calls2) => (.createError e, calls ++ calls2)
      | (.ok res, calls2) => (.negotiating res, calls ++ calls2)

theorem lastIdxSlash_eq_none {l : List Char} (h : '/' ∉ l) :
    lastIdxSlash l = none := by
  induction l with
  | nil => rfl
  | cons c cs ih =>
    have hc : c ≠ '/' := fun hcc => h (hcc ▸ List.mem_cons_self c cs)
    have hcs : '/' ∉ cs := fun hm => h (List.mem_cons_of_mem c hm)
    simp only [lastIdxSlash, ih hcs]
    simp [hc]

/-! ## Claim C4: lock paths without a separator -/

/-- C4 counterexample.  The separator check does not happen before the
connection gate: the whole body of `lock` runs inside the `onConnection`
continuation, so when the gate resolves with an error (here a connection
timeout), the caller receives the gate's error, not the validation error,
even though the path `INVALID_PATH` has no separator.  The claim's "before
gating on the connection (reported synchronously)" is therefore false. -/
theorem C4_counterexample :
    lockModel (some "Timed out after 8000") (fun _ => .zok "") "INVALID_PATH"
      = (.gateError "Timed out after 8000", []) ∧
    LockOutcome.gateError "Timed out after 8000" ≠ .createError zkPathMsg :=
  ⟨rfl, by decide⟩

/-- C4 (amended).  For every lock path with no separator, once the
connection gate resolves successfully, `lock` fails with `_create`'s
path-validation error and no store call is ever made: `lockpath` is empty so
`_createPath` is a no-op, and `_create` rejects the name before contacting
the store.  The check runs only inside the `onConnection` continuation —
asynchronously, after the gate — and a gate error preempts it. -/
theorem C4_no_separator (store : String → Rc) (name : String)
    (h : '/' ∉ name.data) :
    lockModel none store name = (.createError zkPathMsg, []) := by
  have hsplit : (lockSplit name).1 = "" := by
    simp [lockSplit, lastIdxSlash_eq_none h]
  have hpath : createPathModel store (lockSplit name).1 = (none, []) := by
    rw [hsplit]; rfl
  have hhead : name.data.head? ≠ some '/' := by
    intro hc
    cases hl : name.data with
    | nil => rw [hl] at hc; simp at hc
    | cons c cs =>
      rw [hl] at hc
      simp only [List.head?] at hc
      exact h (by rw [hl]; exact (Option.some.inj hc) ▸ List.mem_cons_self c cs)
  have hcreate : createModel store name = (.error zkPathMsg, []) := by
    simp [createModel, hhead]
  simp [lockModel, hpath, hcreate]

/-- C4 witness: the repository's own invalid-path example. -/
theorem C4_no_separator_witness :
    '/' ∉ ("INVALID_PATH" : String).data ∧
    lockModel none (fun _ => .zok "") "INVALID_PATH" = (.createError zkPathMsg, []) :=
  ⟨by decide, C4_no_separator (fun _ => .zok "") "INVALID_PATH" (by decide)⟩

/-! ## Claim C8: `_createPath` -/

/-- A store reply that `_create` reports as an error
(anything other than `ZOK` and `ZNODEEXISTS`). -/
def isHardErr : Rc → Bool
  | .other _ => true
  | _ => false

theorem createModel_of_head (store : String → Rc) (p : String)
    (hp : p.data.head? = some '/') :
    createModel store p =
      (match store p with
       | .zok res => (.ok (some res), [p])
       | .znodeexists => (.ok none, [p])
       | .other e => (.error e, [p])) := by
  unfold createModel
  rw [if_pos hp]

theorem ancestorPaths_head {parts : List String} {p : String}
    (h : p ∈ ancestorPaths parts) : p.data.head? = some '/' := by
  simp only [ancestorPaths, List.mem_map] at h
  obtain ⟨i, _, rfl⟩ := h
  rw [String.data_append]
  have hd : ("/" : String).data = ['/'] := rfl
  rw [hd]
  rfl

theorem fes_allGood (store : String → Rc) :
    ∀ l : List String, (∀ p ∈ l, p.data.head? = some '/') →
      (∀ p ∈ l, isHardErr (store p) = false) →
      forEachSeriesCreate store l = (none, l)
  | [], _, _ => rfl
  | p :: rest, hh, hg => by
    have hp := hh p (List.mem_cons_self p rest)
    have hgp := hg p (List.mem_cons_self p rest)
    have ih := fes_allGood store rest (fun q hq => hh q (List.mem_cons_of_mem p hq))
      (fun q hq => hg q (List.mem_cons_of_mem p hq))
    simp only [forEachSeriesCreate, createModel_of_head store p hp]
    cases hsp : store p with
    | zok res => simp [ih]
    | znodeexists => simp [ih]
    | other e => rw [hsp] at hgp; simp [isHardErr] at hgp

theorem fes_abort (store : String → Rc) (e : String) :
    ∀ (l1 : List String) (q : String) (l2 : List String),
      (∀ p ∈ l1, p.data.head? = some '/') →
      (∀ p ∈ l1, isHardErr (store p) = false) →
      q.data.head? = some '/' → store q = .other e →
      forEachSeriesCreate store (l1 ++ q :: l2) = (some e, l1 ++ [q])
  | [], q, l2, _, _, hq, hsq => by
    simp only [List.nil_append, forEachSeriesCreate, createModel_of_head store q hq, hsq]
  | p :: l1, q, l2, hh, hg, hq, hsq => by
    have hp := hh p (List.mem_cons_self p l1)
    have hgp := hg p (List.mem_cons_self p l1)
    have ih := fes_abort store e l1 q l2 (fun r hr => hh r (List.mem_cons_of_mem p hr))
      (fun r hr => hg r (List.mem_cons_of_mem p hr)) hq hsq
    simp only [List.cons_append, forEachSeriesCreate, createModel_of_head store p hp]
    cases hsp : store p with
    | zok res => simp [ih]
    | znodeexists => simp [ih]
    | other e' => rw [hsp] at hgp; simp [isHardErr] at hgp

/-- C8.  `_createPath` splits its argument into the ordered ancestor
prefixes (ignoring one leading separator); for the empty path and `"/"` it
succeeds with no `_create` call; otherwise it creates the ancestors
strictly sequentially front-to-back — when no ancestor's creation hard-fails
(with `ZNODEEXISTS` counting as success) every ancestor is attempted in
order and the call succeeds, and when some ancestor hard-fails the sequence
stops right there (nothing after the failing ancestor is attempted) and the
store's error is reported. -/
theorem C8_createPath (store : String → Rc) (path : String) :
    (createPathModel store "" = (none, []) ∧ createPathModel store "/" = (none, [])) ∧
    ((stripLeadSlash path).data ≠ [] →
      (∀ p ∈ ancestorPaths (segsOf (stripLeadSlash path)), isHardErr (store p) = false) →
      createPathModel store path = (none, ancestorPaths (segsOf (stripLeadSlash path)))) ∧
    (∀ l1 q l2 e, (stripLeadSlash path).data ≠ [] →
      ancestorPaths (segsOf (stripLeadSlash path)) = l1 ++ q :: l2 →
      (∀ p ∈ l1, isHardErr (store p) = false) → store q = .other e →
      createPathModel store path = (some e, l1 ++ [q])) := by
  have expand : createPathModel store path =
      if (stripLeadSlash path).data.length = 0 then (none, [])
      else forEachSeriesCreate store (ancestorPaths (segsOf (stripLeadSlash path))) := rfl
  refine ⟨⟨rfl, rfl⟩, ?_, ?_⟩
  · intro hne hgood
    rw [expand, if_neg (fun h0 => hne (List.length_eq_zero.mp h0))]
    exact fes_allGood store _ (fun p hp => ancestorPaths_head hp) hgood
  · intro l1 q l2 e hne heq hgood hq
    rw [expand, if_neg (fun h0 => hne (List.length_eq_zero.mp h0)), heq]
    refine fes_abort store e l1 q l2 ?_ hgood ?_ hq
    · intro p hp
      exact ancestorPaths_head (heq ▸ List.mem_append_left _ hp)
    · exact ancestorPaths_head (heq ▸ List.mem_append_right _ (List.mem_cons_self q l2))

/-- C8 witness: `/foo/bar` provisions `/foo` then `/foo/bar` when the store
reports "already exists" everywhere, and stops at `/foo` reporting the
store's error when `/foo`'s creation hard-fails. -/
theorem C8_createPath_witness :
    createPathModel (fun _ => .znodeexists) "/foo/bar"
      = (none, ["/foo", "/foo/bar"]) ∧
    createPathModel (fun p => if p = "/foo" then .other "boom" else .znodeexists) "/foo/bar"
      = (some "boom", ["/foo"]) := by
  constructor
  · exact (C8_createPath (fun _ => .znodeexists) "/foo/bar").2.1 (by decide) (by decide)
  · exact (C8_createPath (fun p => if p = "/foo" then .other "boom" else .znodeexists)
      "/foo/bar").2.2 [] "/foo" ["/foo/bar"] "boom" (by decide) (by decide)
      (by decide) (by decide)

/-! ## `onConnection` (lines 239–270)

For a session that is neither `CONNECTED` nor `ERROR`, `onConnection`
starts a timeout timer, wraps the caller's callback in `_.once` (the
wrapper also clears the timer), and registers the wrapper on both the
`CONNECTED` and `ERROR` events of the state emitter.  The timer's closure
calls the same wrapper (the `callback` variable is reassigned before the
timer can fire).  The listeners stay registered (`on`, not `once`), so
later events reach the wrapper again and are suppressed by the `_.once`
guard. -/

/-- The connection states (`ZkCxn.prototype.cxnStates`). -/
inductive CxnState where
  | ERROR
  | CLOSED
  | CONNECTING
  | CONNECTED
deriving DecidableEq

/-- The mutable state of one registered `onConnection` callback:
whether the `_.once` guard has fired, and whether the timeout timer is
still pending (`clearTimeout` has not run). -/
structure OCState where
  fired : Bool
  timerActive : Bool
deriving DecidableEq

/-- The three things that can resolve a registered callback. -/
inductive OCEvent where
  /-- the state emitter fires `CONNECTED`. -/
  | connected
  /-- the state emitter fires `ERROR`. -/
  | errored
  /-- the timeout timer fires (only possible while it is active). -/
  | timerFired
deriving DecidableEq

/-- One event's effect: the returned `Nat` counts invocations of the
caller's original callback (0 or 1).  A fired timer whose `clearTimeout`
already ran has no effect; any event reaching the `_.once` wrapper after
the first is suppressed; the first resolution clears the timer inside the
wrapper. -/
def ocStep (s : OCState) (e : OCEvent) : OCState × Nat :=
  match e with
  | .timerFired =>
    if s.timerActive then
      if s.fired then (⟨s.fired, false⟩, 0) else (⟨true, false⟩, 1)
    else (s, 0)
  | _ =>
    if s.fired then (s, 0) else (⟨true, false⟩, 1)

/-- Run a sequence of resolution events, summing callback invocations. -/
def ocRun : List OCEvent → OCState → OCState × Nat
  | [], s => (s, 0)
  | e :: es, s =>
    let r := ocStep s e
    let r' := ocRun es r.1
    (r'.1, r.2 + r'.2)

/-- What `onConnection` does as a function of the current session state:
`ERROR` and `CONNECTED` invoke the callback immediately; otherwise the
callback is registered with a fresh one-shot guard and a pending timer. -/
inductive OnConnAction where
  | immediateError
  | immediateSuccess
  | registered (s : OCState)
deriving DecidableEq

/-- `ZkCxn.prototype.onConnection`'s dispatch on `this._cxnState`. -/
def onConnectionModel : CxnState → OnConnAction
  | .ERROR => .immediateError
  | .CONNECTED => .immediateSuccess
  | _ => .registered ⟨false, true⟩

theorem ocRun_fired (es : List OCEvent) :
    ocRun es ⟨true, false⟩ = (⟨true, false⟩, 0) := by
  induction es with
  | nil => rfl
  | cons e es ih =>
    cases e <;> simp [ocRun, ocStep, ih]

/-! ## Claim C5 -/

/-- C5.  A callback registered while the session is neither `CONNECTED` nor
`ERROR` (i.e. `CLOSED` or `CONNECTING`) starts unfired with a pending
timer; whichever of {connected, error, timeout} arrives first invokes the
original callback (exactly one invocation) and deactivates the timer, and
any sequence of later resolutions adds no further invocation: over any
nonempty event sequence the callback runs exactly once. -/
theorem C5_once_guard (e : OCEvent) (es : List OCEvent) :
    onConnectionModel .CLOSED = .registered ⟨false, true⟩ ∧
    onConnectionModel .CONNECTING = .registered ⟨false, true⟩ ∧
    ocStep ⟨false, true⟩ e = (⟨true, false⟩, 1) ∧
    ocRun (e :: es) ⟨false, true⟩ = (⟨true, false⟩, 1) := by
  have hstep : ocStep ⟨false, true⟩ e = (⟨true, false⟩, 1) := by
    cases e <;> rfl
  refine ⟨rfl, rfl, hstep, ?_⟩
  simp [ocRun, hstep, ocRun_fired es]

/-! ## JavaScript objects used as tables

`this._watching`, `this._locks` and the module-level `cxns` are plain
objects keyed by strings.  We model them as association lists with unique
keys; `alLookup` is property read (`undefined` = `none`), `alErase` is
`delete obj[k]`. -/

/-- `obj[k]`. -/
def alLookup {β : Type} : List (String × β) → String → Option β
  | [], _ => none
  | (q, v) :: rest, k => if q = k then some v else alLookup rest k

/-- `delete obj[k]` (removes the key's entry; keys are unique). -/
def alErase {β : Type} : List (String × β) → String → List (String × β)
  | [], _ => []
  | e :: rest, k => if e.1 = k then alErase rest k else e :: alErase rest k

theorem alLookup_alErase_self {β : Type} (l : List (String × β)) (k : String) :
    alLookup (alErase l k) k = none := by
  induction l with
  | nil => rfl
  | cons e rest ih =>
    by_cases h : e.1 = k
    · simpa [alErase, h] using ih
    · simpa [alErase, alLookup, h] using ih

theorem alLookup_alErase_ne {β : Type} (l : List (String × β)) (k q : String)
    (h : q ≠ k) : alLookup (alErase l k) q = alLookup l q := by
  induction l with
  | nil => rfl
  | cons e rest ih =>
    simp only [alErase]
    by_cases he : e.1 = k
    · rw [if_pos he, ih]
      have hne : e.1 ≠ q := fun hq => h (hq ▸ he)
      simp [alLookup, hne]
    · rw [if_neg he]
      by_cases heq : e.1 = q
      · simp [alLookup, heq]
      · simp [alLookup, heq, ih]

theorem alErase_of_absent {β : Type} (l : List (String × β)) (k : String)
    (h : alLookup l k = none) : alErase l k = l := by
  induction l with
  | nil => rfl
  | cons e rest ih =>
    by_cases he : e.1 = k
    · simp [alLookup, he] at h
    · simp only [alLookup, if_neg he] at h
      simp [alErase, he, ih h]

/-! ## The watch registry (`_watch` lines 512–524, deleted handler 358–367) -/

/-- `node path -> array of Function`; continuations are represented by
values of an arbitrary type `κ`. -/
abbrev WatchReg (κ : Type) : Type := List (String × List κ)

/-- The registry bookkeeping of `ZkCxn.prototype._watch` once the
existence check succeeded:
`self._watching[path] = self._watching[path] || []; self._watching[path].push(callback)`. -/
def watchAdd {κ : Type} (w : WatchReg κ) (p : String) (k : κ) : WatchReg κ :=
  match alLookup w p with
  | some _ => w.map (fun e => if e.1 = p then (e.1, e.2 ++ [k]) else e)
  | none => w ++ [(p, [k])]

/-- The `on_event_deleted` handler: if an entry for the path exists, take
its callback array, delete the entry, and invoke every callback in order
(the returned list is the invocation sequence); otherwise do nothing. -/
def onDeleted {κ : Type} (w : WatchReg κ) (p : String) : WatchReg κ × List κ :=
  match alLookup w p with
  | some callbacks => (alErase w p, callbacks)
  | none => (w, [])

theorem alLookup_watchAdd_self {κ : Type} (w : WatchReg κ) (p : String) (k : κ) :
    alLookup (watchAdd w p k) p = some ((alLookup w p).getD [] ++ [k]) := by
  induction w with
  | nil => simp [watchAdd, alLookup]
  | cons e rest ih =>
    by_cases he : e.1 = p
    · simp [watchAdd, alLookup, he]
    · have hw : watchAdd (e :: rest) p k = e :: watchAdd rest p k := by
        cases hr : alLookup rest p with
        | some v => simp [watchAdd, alLookup, he, hr]
        | none => simp [watchAdd, alLookup, he, hr]
      rw [hw]
      have hl : alLookup ((e :: rest) : WatchReg κ) p = alLookup rest p := by
        simp [alLookup, he]
      rw [hl]
      simpa [alLookup, he] using ih

/-! ## Claim C6: the node-deleted handler -/

/-- C6.  On a node-deleted event for `p` the handler removes the entry for
`p` and fires exactly the queued continuation list, in its stored order
(which `watchAdd` maintains as registration order by appending); the
resulting registry has no entry for `p` and every other path's entry is
untouched; when no entry for `p` exists the registry is returned unchanged
and nothing fires. -/
theorem C6_deleted_handler (w : WatchReg Nat) (p : String) :
    ((onDeleted w p).2 = (alLookup w p).getD [] ∧
      alLookup (onDeleted w p).1 p = none ∧
      (∀ q, q ≠ p → alLookup (onDeleted w p).1 q = alLookup w q)) ∧
    (alLookup w p = none → (onDeleted w p).1 = w ∧ (onDeleted w p).2 = []) ∧
    (∀ k, alLookup (watchAdd w p k) p = some ((alLookup w p).getD [] ++ [k])) := by
  refine ⟨⟨?_, ?_, ?_⟩, ?_, fun k => alLookup_watchAdd_self w p k⟩
  · cases h : alLookup w p with
    | some cbs => simp [onDeleted, h]
    | none => simp [onDeleted, h]
  · cases h : alLookup w p with
    | some cbs => simpa [onDeleted, h] using alLookup_alErase_self w p
    | none => simp [onDeleted, h]
  · intro q hq
    cases h : alLookup w p with
    | some cbs => simpa [onDeleted, h] using alLookup_alErase_ne w p q hq
    | none => simp [onDeleted, h]
  · intro h
    simp [onDeleted, h]

/-- C6 witness: a registry with two queued continuations on `/a` and one on
`/b`; deleting `/a` fires `[1, 2]` in order, leaves `/b` alone, and a
delete for the absent `/c` is a no-op. -/
theorem C6_deleted_handler_witness :
    (onDeleted ([("/a", [1, 2]), ("/b", [3])] : WatchReg Nat) "/a").2 = [1, 2] ∧
    alLookup (onDeleted ([("/a", [1, 2]), ("/b", [3])] : WatchReg Nat) "/a").1 "/a" = none ∧
    alLookup (onDeleted ([("/a", [1, 2]), ("/b", [3])] : WatchReg Nat) "/a").1 "/b" = some [3] ∧
    (onDeleted ([("/b", [3])] : WatchReg Nat) "/c").1 = [("/b", [3])] ∧
    alLookup (watchAdd ([("/a", [1, 2]), ("/b", [3])] : WatchReg Nat) "/a" 9) "/a"
      = some [1, 2, 9] := by
  refine ⟨?_, ?_, ?_, ?_, ?_⟩
  · simpa using (C6_deleted_handler [("/a", [1, 2]), ("/b", [3])] "/a").1.1
  · exact (C6_deleted_handler [("/a", [1, 2]), ("/b", [3])] "/a").1.2.1
  · simpa using (C6_deleted_handler [("/a", [1, 2]), ("/b", [3])] "/a").1.2.2 "/b" (by decide)
  · exact ((C6_deleted_handler [("/b", [3])] "/c").2.1 (by decide)).1
  · simpa using (C6_deleted_handler [("/a", [1, 2]), ("/b", [3])] "/a").2.2 9

/-! ## `unlock` (lines 209–231)

The lock table `this._locks` maps the logical lock path to the created
node path.  After the connection gate, `unlock` fails when the table has no
entry, otherwise deletes the recorded node (`a_delete_`): a non-`ZOK` code
reports the store's error and leaves the entry, `ZOK` removes the entry and
reports the original name. -/

inductive UnlockOutcome where
  /-- `onConnection` delivered an error. -/
  | gateError (e : String)
  /-- `callback(new Error("Don't have lock " + name + "!"))`. -/
  | notHeld (name : String)
  /-- `a_delete_` returned a non-`ZOK` code; its error is reported. -/
  | deleteError (e : String)
  /-- `callback(null, name)` after the entry was removed. -/
  | unlocked (name : String)
deriving DecidableEq

/-- `ZkCxn.prototype.unlock`.  `gate` is what `onConnection` delivered;
`del node` is `a_delete_(node, 0, ...)`'s result (`none` = `ZOK`).
Returns the outcome and the resulting lock table. -/
def unlockModel (gate : Option String) (locks : List (String × String))
    (name : String) (del : String → Option String) :
    UnlockOutcome × List (String × String) :=
  match gate with
  | some e => (.gateError e, locks)
  | none =>
    match alLookup locks name with
    | none => (.notHeld name, locks)
    | some node =>
      match del node with
      | some e => (.deleteError e, locks)
      | none => (.unlocked name, alErase locks name)

/-! ## Claim C7 -/

/-- C7.  With the gate resolved: no table entry for `name` fails with the
"don't have lock" error and leaves the table untouched; a store deletion
failure reports the store's error and leaves the entry (and the whole
table) intact; a successful deletion reports the original logical `name`,
removes exactly that entry, and preserves every other entry. -/
theorem C7_unlock (locks : List (String × String)) (name : String)
    (del : String → Option String) :
    (alLookup locks name = none →
      unlockModel none locks name del = (.notHeld name, locks)) ∧
    (∀ node e, alLookup locks name = some node → del node = some e →
      unlockModel none locks name del = (.deleteError e, locks)) ∧
    (∀ node, alLookup locks name = some node → del node = none →
      (unlockModel none locks name del).1 = .unlocked name ∧
      alLookup (unlockModel none locks name del).2 name = none ∧
      (∀ q, q ≠ name → alLookup (unlockModel none locks name del).2 q = alLookup locks q)) := by
  refine ⟨?_, ?_, ?_⟩
  · intro h
    simp [unlockModel, h]
  · intro node e hl hd
    simp [unlockModel, hl, hd]
  · intro node hl hd
    refine ⟨by simp [unlockModel, hl, hd], ?_, ?_⟩
    · simpa [unlockModel, hl, hd] using alLookup_alErase_self locks name
    · intro q hq
      simpa [unlockModel, hl, hd] using alLookup_alErase_ne locks name q hq

/-- C7 witness: a table holding `/apple/tree` and `/plum/tree`; unlocking a
path never locked fails and changes nothing; a failed store deletion keeps
the entry; a successful one removes only that entry and reports the
original path. -/
theorem C7_unlock_witness :
    unlockModel none [("/apple/tree", "/apple/tree000001")] "/plum/tree" (fun _ => none)
      = (.notHeld "/plum/tree", [("/apple/tree", "/apple/tree000001")]) ∧
    unlockModel none [("/apple/tree", "/apple/tree000001")] "/apple/tree"
        (fun _ => some "ZCONNECTIONLOSS")
      = (.deleteError "ZCONNECTIONLOSS", [("/apple/tree", "/apple/tree000001")]) ∧
    (unlockModel none [("/apple/tree", "/apple/tree000001"), ("/plum/tree", "/plum/tree000002")]
        "/apple/tree" (fun _ => none)).1 = .unlocked "/apple/tree" ∧
    alLookup (unlockModel none
        [("/apple/tree", "/apple/tree000001"), ("/plum/tree", "/plum/tree000002")]
        "/apple/tree" (fun _ => none)).2 "/plum/tree" = some "/plum/tree000002" := by
  refine ⟨?_, ?_, ?_, ?_⟩
  · exact (C7_unlock [("/apple/tree", "/apple/tree000001")] "/plum/tree" (fun _ => none)).1
      (by decide)
  · exact (C7_unlock [("/apple/tree", "/apple/tree000001")] "/apple/tree"
      (fun _ => some "ZCONNECTIONLOSS")).2.1 "/apple/tree000001" "ZCONNECTIONLOSS"
      (by decide) rfl
  · exact ((C7_unlock [("/apple/tree", "/apple/tree000001"), ("/plum/tree", "/plum/tree000002")]
      "/apple/tree" (fun _ => none)).2.2 "/apple/tree000001" (by decide) rfl).1
  · have h := ((C7_unlock
      [("/apple/tree", "/apple/tree000001"), ("/plum/tree", "/plum/tree000002")]
      "/apple/tree" (fun _ => none)).2.2 "/apple/tree000001" (by decide) rfl).2.2
      "/plum/tree" (by decide)
    simpa using h

/-! ## The process-wide connection registry (`getCxn` lines 70–80,
`shutdown` lines 87–94)

`cxns` maps the joined-urls key to a `ZkCxn`.  `shutdown` snapshots
`_.values(cxns)`, replaces `cxns` with a fresh empty object, and runs
`cxn.close(...)` over every snapshotted session via `async.forEach`
(parallel `each`): every close is initiated regardless of other failures,
and the completion callback receives the first error that occurs.  A
session is represented by an identifier and the outcome its `close`
reports. -/

structure Cxn where
  id : Nat
  closeErr : Option String
deriving DecidableEq

abbrev CxnTable := List (String × Cxn)

/-- `async.forEach(toClose, function(cxn, callback) { cxn.close(callback); },
callback)`: all sessions are close-attempted (first component), and the
first close error in sequence (if any) is what the final callback gets. -/
def forEachClose : List Cxn → List Cxn × Option String
  | [] => ([], none)
  | c :: rest =>
    let r := forEachClose rest
    (c :: r.1, match c.closeErr with
      | some e => some e
      | none => r.2)

/-- `exports.shutdown`: swap the table for empty, then close the snapshot.
Returns the new table, the close-attempted sessions, and the reported
error. -/
def shutdownModel (t : CxnTable) : CxnTable × List Cxn × Option String :=
  let toClose := t.map (fun e => e.2)
  let r := forEachClose toClose
  ([], r.1, r.2)

/-- `exports.getCxn`: reuse the table's session for the key when present,
else construct a fresh one and store it.  The `Bool` records whether a
fresh session was constructed. -/
def getCxnModel (t : CxnTable) (key : String) (fresh : Cxn) : CxnTable × Cxn × Bool :=
  match alLookup t key with
  | some c => (t, c, false)
  | none => (t ++ [(key, fresh)], fresh, true)

theorem forEachClose_spec (l : List Cxn) :
    forEachClose l = (l, ((l.map Cxn.closeErr).filterMap id).head?) := by
  induction l with
  | nil => rfl
  | cons c rest ih =>
    simp only [forEachClose, ih]
    cases h : c.closeErr with
    | some e => simp [h]
    | none => simp [h]

/-! ## Claim C9 -/

/-- C9.  `shutdown` leaves an empty registry table; every
previously-registered session is close-attempted, in registry order,
regardless of individual close failures; the reported error is the first
close error among them (`none` when all closes succeed); and any `getCxn`
issued against the post-swap table constructs and returns a fresh session
for its endpoint key. -/
theorem C9_shutdown (t : CxnTable) (key : String) (fresh : Cxn) :
    (shutdownModel t).1 = [] ∧
    (shutdownModel t).2.1 = t.map (fun e => e.2) ∧
    (shutdownModel t).2.2 = ((t.map (fun e => e.2.closeErr)).filterMap id).head? ∧
    getCxnModel (shutdownModel t).1 key fresh = ([(key, fresh)], fresh, true) := by
  refine ⟨rfl, ?_, ?_, rfl⟩
  · simp [shutdownModel, forEachClose_spec]
  · simp only [shutdownModel, forEachClose_spec, List.map_map]
    rfl

/-! ## Claim C10: re-registration during the drain

The handler runs `delete self._watching[lock]` **before** the
`callbacks.forEach` fan-out, so a continuation that calls `_watch` on the
same path while the fan-out runs appends to a fresh entry.  A continuation
is a registration instance with an identifier and an optional action of
registering one new continuation (a fresh instance) on the same path when
fired. -/

structure Cont where
  id : Nat
  /-- when fired, register a new watch continuation with this identifier
  on the same path (`none`: do nothing). -/
  rereg : Option Nat
deriving DecidableEq

/-- The fan-out `callbacks.forEach(function(callback){ callback(); })`,
with each fired continuation's re-registration applied to the registry the
handler left behind (the one with the path's entry already deleted). -/
def reregFold (acc : WatchReg Cont) (p : String) : List Cont → WatchReg Cont
  | [] => acc
  | c :: rest =>
    match c.rereg with
    | some k => reregFold (watchAdd acc p ⟨k, none⟩) p rest
    | none => reregFold acc p rest

/-- The `on_event_deleted` handler with re-registering continuations:
delete the entry first, then fire the drained callbacks in order. -/
def onDeletedReentrant (w : WatchReg Cont) (p : String) : WatchReg Cont × List Cont :=
  match alLookup w p with
  | some callbacks => (reregFold (alErase w p) p callbacks, callbacks)
  | none => (w, [])

theorem reregFold_lookup (p : String) :
    ∀ (cbs : List Cont) (acc : WatchReg Cont),
      (alLookup (reregFold acc p cbs) p).getD []
        = (alLookup acc p).getD [] ++ cbs.filterMap (fun c => c.rereg.map (fun k => ⟨k, none⟩))
  | [], acc => (List.append_nil _).symm
  | c :: rest, acc => by
    cases hc : c.rereg with
    | some k =>
      simp only [reregFold, hc, List.filterMap_cons, Option.map_some]
      rw [reregFold_lookup p rest (watchAdd acc p ⟨k, none⟩)]
      rw [alLookup_watchAdd_self acc p ⟨k, none⟩]
      simp
    | none =>
      simp only [reregFold, hc, List.filterMap_cons]
      exact reregFold_lookup p rest acc

/-! The claim theorem. -/

/-- C10.  When the deleted path has a queued entry `cbs`, the handler fires
exactly `cbs` (each continuation once, in order); because the entry is
deleted before the fan-out, the entry left for `p` afterwards consists of
exactly the continuations re-registered by the fired ones, in firing order
— and, provided the re-registered identifiers are fresh (no fired
instance's identifier), no fired continuation instance remains in the
registry's entry for the path. -/
theorem C10_rereg_fresh (w : WatchReg Cont) (p : String) (cbs : List Cont)
    (hq : alLookup w p = some cbs)
    (hfresh : ∀ c ∈ cbs, ∀ k, c.rereg = some k → ∀ c' ∈ cbs, c'.id ≠ k) :
    (onDeletedReentrant w p).2 = cbs ∧
    (alLookup (onDeletedReentrant w p).1 p).getD []
      = cbs.filterMap (fun c => c.rereg.map (fun k => ⟨k, none⟩)) ∧
    (∀ c ∈ cbs, ∀ d ∈ (alLookup (onDeletedReentrant w p).1 p).getD [], d.id ≠ c.id) := by
  have hfire : (onDeletedReentrant w p).2 = cbs := by
    simp [onDeletedReentrant, hq]
  have hw1 : (onDeletedReentrant w p).1 = reregFold (alErase w p) p cbs := by
    simp [onDeletedReentrant, hq]
  have hentry : (alLookup (onDeletedReentrant w p).1 p).getD []
      = cbs.filterMap (fun c => c.rereg.map (fun k => ⟨k, none⟩)) := by
    rw [hw1, reregFold_lookup p cbs (alErase w p), alLookup_alErase_self w p]
    simp
  refine ⟨hfire, hentry, ?_⟩
  intro c hc d hd
  rw [hentry] at hd
  rw [List.mem_filterMap] at hd
  obtain ⟨c', hc', hmap⟩ := hd
  cases hr : c'.rereg with
  | none => rw [hr] at hmap; simp at hmap
  | some k =>
    rw [hr] at hmap
    have hdk : (⟨k, none⟩ : Cont) = d := Option.some.inj hmap
    rw [← hdk]
    exact fun hkc => (hfresh c' hc' k hr c hc) hkc.symm

/-- C10 witness: two queued continuations on `/a`, the first of which
re-registers identifier 7; after the drain the entry holds exactly the
fresh instance 7 and neither fired instance. -/
theorem C10_rereg_fresh_witness :
    (onDeletedReentrant [("/a", [⟨1, some 7⟩, ⟨2, none⟩])] "/a").2
      = [⟨1, some 7⟩, ⟨2, none⟩] ∧
    (alLookup (onDeletedReentrant [("/a", [⟨1, some 7⟩, ⟨2, none⟩])] "/a").1 "/a").getD []
      = [⟨7, none⟩] ∧
    (∀ c ∈ ([⟨1, some 7⟩, ⟨2, none⟩] : List Cont),
      ∀ d ∈ (alLookup (onDeletedReentrant [("/a", [⟨1, some 7⟩, ⟨2, none⟩])] "/a").1 "/a").getD [],
        d.id ≠ c.id) := by
  have h := C10_rereg_fresh [("/a", [⟨1, some 7⟩, ⟨2, none⟩])] "/a"
    [⟨1, some 7⟩, ⟨2, none⟩] (by decide) (by decide)
  exact ⟨h.1, by simpa using h.2.1, h.2.2⟩

end ZkUltralight
